import Mathlib

/-!
# Scroll-synchronised scene controller (`src/App.jsx`)

A shallow embedding of the time-varying control logic of `App.jsx`:

* `onScroll` (lines 174-188): the scroll handler that tracks the raw offset, derives the
  section index and requests the one-shot rotation tweens, and the registration of this handler
  by the effect of lines 173-192;
* `animate` (lines 127-151): one tick of the render loop (camera smoothing, camera bob,
  mesh rotation and mesh bob);
* the particle loop (lines 93-107): the spherical-shell point cloud.

Statements about a single evaluation of a formula of the source (`onScroll`, `animate`) are
made over an ordered field `K`, where the formula is read exactly.  Statements about values
that accumulate rounding (the smoothed depth over frames, the coordinates stored in the
`Float32Array`) are made over the binary64 and binary32 roundings of the operations, with
numbers represented by the rationals they denote.  `Math.sin`, `Math.cos` and `Math.acos` are
parameters of the definitions that use them.
-/

namespace Portfolio

/-! ## Data model -/

/-- The three cubes created at lines 49-51; `mesh1` has index 0 in the render loop. -/
inductive Mesh where
  | mesh1
  | mesh2
  | mesh3
deriving DecidableEq, Repr

/-- Observable calls made by `onScroll`, in program order.
`setCurrentSection n` is the React state setter of line 180;
`gsapTo m d r` is `gsap.to(m.rotation, { duration: d, y: "+=r" })` of lines 183 and 185:
a relative tween of the rotation about y of mesh `m`. -/
inductive Effect (K : Type) where
  | setCurrentSection (n : ℤ)
  | gsapTo (target : Mesh) (duration : K) (yPlusEq : K)

/-- State read and written by the scroll handler.
`mesh2Ref`/`mesh3Ref` record whether the `.current` of the ref is set: lines 78-79 are the only
assignments, so a set ref holds `mesh2` (resp. `mesh3`). -/
structure ScrollState (K : Type) where
  scrollYRef : K
  currentSection : ℤ
  mesh2Ref : Bool
  mesh3Ref : Bool

/-- State once the component is mounted and the scroll listener is registered:
`useState(0)` (line 9), `useRef(0)` (line 15) and the refs assigned at lines 78-79 by the
first effect, which runs before the effect that registers `onScroll`. -/
def initialScroll {K : Type} [LinearOrderedField K] : ScrollState K :=
  { scrollYRef := 0, currentSection := 0, mesh2Ref := true, mesh3Ref := true }

/-- The section-change notifications among the calls: the arguments of `setCurrentSection`. -/
def notifications {K : Type} : List (Effect K) → List ℤ
  | [] => []
  | Effect.setCurrentSection n :: es => n :: notifications es
  | Effect.gsapTo _ _ _ :: es => notifications es

/-- The animation requests among the calls: target mesh, duration and relative y delta. -/
def tweens {K : Type} : List (Effect K) → List (Mesh × K × K)
  | [] => []
  | Effect.setCurrentSection _ :: es => tweens es
  | Effect.gsapTo m d r :: es => (m, d, r) :: tweens es

/-- The mesh bound to a section by lines 182-185: section 1 to `mesh2`, section 2 to `mesh3`. -/
def sectionMesh (n : ℤ) : Option Mesh :=
  if n = 1 then some Mesh.mesh2 else if n = 2 then some Mesh.mesh3 else none

/-- `Math.round`: the nearest integer, a half rounded toward `+∞`. -/
def mathRound {K : Type} [LinearOrderedField K] [FloorRing K] (x : K) : ℤ := ⌊x + 1 / 2⌋

/-! ## The scroll handler -/

/-- `onScroll` (lines 174-188) for an event at `window.scrollY = scrollY` with
`window.innerHeight = innerHeight`; `s.currentSection` is the value the closure reads at line
179.  Returns the state once the call has taken effect (the `currentSection` passed to
`setCurrentSection` is what a handler sees after the effect has re-run for the dependency of
line 192) and the calls made. -/
def onScroll {K : Type} [LinearOrderedField K] [FloorRing K]
    (innerHeight scrollY : K) (s : ScrollState K) :
    ScrollState K × List (Effect K) :=
  let scrollPercent := scrollY / innerHeight
  let newSection := mathRound scrollPercent
  if newSection ≠ s.currentSection then
    ({ s with scrollYRef := scrollY, currentSection := newSection },
      Effect.setCurrentSection newSection ::
        (if newSection = 1 ∧ s.mesh2Ref = true then
          [Effect.gsapTo Mesh.mesh2 1.5 6]
        else if newSection = 2 ∧ s.mesh3Ref = true then
          [Effect.gsapTo Mesh.mesh3 1.5 6]
        else []))
  else
    ({ s with scrollYRef := scrollY }, [])

/-- The mounted component between two events.
`listener` is the state as seen by the registered `onScroll` closure: the refs are shared, and
its `currentSection` is the constant captured by the render that created the closure (line 179
reads this constant).  `rendered` is the React state `currentSection`, as last set by
`setCurrentSection`; the closure does not see it until the effect of lines 173-192 re-runs. -/
structure App (K : Type) where
  listener : ScrollState K
  rendered : ℤ

/-- What can happen to the mounted component: a scroll event at `window.scrollY = scrollY`, or
the re-run of the effect of lines 173-192 after a render (dependency `[currentSection]`, line
192), which replaces the listener by a closure over the rendered `currentSection`. -/
inductive AppEvent (K : Type) where
  | scroll (scrollY : K)
  | effect

/-- The component once mounted: the listener of the first render, section 0. -/
def initialApp {K : Type} [LinearOrderedField K] : App K :=
  { listener := initialScroll, rendered := 0 }

/-- One event.  A scroll event runs the registered `onScroll`: the refs it writes are kept,
the index it passes to `setCurrentSection` (if any) becomes the rendered one, and the captured
`currentSection` of the listener stays what it was.  An effect re-run hands the rendered index
to the listener. -/
def dispatch {K : Type} [LinearOrderedField K] [FloorRing K] (innerHeight : K) (a : App K) :
    AppEvent K → App K × List (Effect K)
  | AppEvent.scroll scrollY =>
    let r := onScroll innerHeight scrollY a.listener
    ({ listener := { r.1 with currentSection := a.listener.currentSection }
       rendered :=
        match notifications r.2 with
        | [] => a.rendered
        | n :: _ => n },
      r.2)
  | AppEvent.effect =>
    ({ a with listener := { a.listener with currentSection := a.rendered } }, [])

/-- A sequence of events, oldest first, collecting all calls. -/
def runApp {K : Type} [LinearOrderedField K] [FloorRing K] (innerHeight : K) :
    List (AppEvent K) → App K → App K × List (Effect K)
  | [], a => (a, [])
  | e :: es, a =>
    let r := dispatch innerHeight a e
    let rest := runApp innerHeight es r.1
    (rest.1, r.2 ++ rest.2)

/-- Scroll events at the given offsets, each followed by the effect re-run before the next. -/
def settled {K : Type} : List K → List (AppEvent K)
  | [] => []
  | y :: ys => AppEvent.scroll y :: AppEvent.effect :: settled ys

/-- Number of events of a sequence at which the rounded quotient differs from the section index
left by the previous event (`cur` for the first one) and the new index is 1 or 2. -/
def boundCrossings {K : Type} [LinearOrderedField K] [FloorRing K] (innerHeight : K) :
    ℤ → List K → ℕ
  | _, [] => 0
  | cur, y :: ys =>
    (if mathRound (y / innerHeight) ≠ cur ∧
        (mathRound (y / innerHeight) = 1 ∨ mathRound (y / innerHeight) = 2) then 1 else 0)
      + boundCrossings innerHeight (mathRound (y / innerHeight)) ys

/-! ## The render loop -/

/-- Modelled from the spec: `THREE.MathUtils.lerp(x, y, t)` belongs to the three.js dependency
and its source is not under `src/`; the spec describes `lerp` with a factor in `(0, 1)` as a
convex combination of its first two arguments, `(1 - t) * x + t * y`. -/
def lerp {K : Type} [Field K] (x y t : K) : K := (1 - t) * x + t * y

/-- The scene quantities written by `animate`: the camera position (y and z), the smoothed depth
`cameraZRef.current`, and for each cube its rotation about y and its vertical position. -/
structure Scene (K : Type) where
  cameraPosY : K
  cameraPosZ : K
  cameraZRef : K
  mesh1RotY : K
  mesh2RotY : K
  mesh3RotY : K
  mesh1PosY : K
  mesh2PosY : K
  mesh3PosY : K

/-- The scene as constructed by the first effect: `useRef(4)` (line 16),
`camera.position.z = 4` (line 39); every other coordinate has the three.js default 0. -/
def initialScene {K : Type} [Field K] : Scene K :=
  { cameraPosY := 0, cameraPosZ := 4, cameraZRef := 4,
    mesh1RotY := 0, mesh2RotY := 0, mesh3RotY := 0,
    mesh1PosY := 0, mesh2PosY := 0, mesh3PosY := 0 }

/-- One tick of `animate` (lines 127-147) at `time = performance.now() * 0.001`, with
`scrollYRef.current = scrollY` and `window.innerHeight = innerHeight`; `sin` is `Math.sin`. -/
def animate {K : Type} [Field K] (sin : K → K) (time scrollY innerHeight : K) (s : Scene K) :
    Scene K :=
  let targetZ := 4 - (scrollY / innerHeight) * 10
  let cameraZRef := lerp s.cameraZRef targetZ 0.05
  { cameraPosY := sin (time * 2) * 0.05
    cameraPosZ := cameraZRef
    cameraZRef := cameraZRef
    mesh1RotY := s.mesh1RotY + 0.01
    mesh2RotY := s.mesh2RotY + 0.01
    mesh3RotY := s.mesh3RotY + 0.01
    mesh1PosY := sin time * 0.1
    mesh2PosY := sin (time + 1) * 0.1
    mesh3PosY := sin (time + 2) * 0.1 }

/-- The depth the camera is steered to (line 135). -/
def targetDepth {K : Type} [Field K] (scrollY innerHeight : K) : K :=
  4 - (scrollY / innerHeight) * 10

/-- Position of a cube in the order `mesh1, mesh2, mesh3` of the render loop. -/
def Mesh.index : Mesh → ℕ
  | Mesh.mesh1 => 0
  | Mesh.mesh2 => 1
  | Mesh.mesh3 => 2

/-- Rotation about y of a cube. -/
def Scene.rotY {K : Type} (s : Scene K) : Mesh → K
  | Mesh.mesh1 => s.mesh1RotY
  | Mesh.mesh2 => s.mesh2RotY
  | Mesh.mesh3 => s.mesh3RotY

/-- Vertical position of a cube. -/
def Scene.posY {K : Type} (s : Scene K) : Mesh → K
  | Mesh.mesh1 => s.mesh1PosY
  | Mesh.mesh2 => s.mesh2PosY
  | Mesh.mesh3 => s.mesh3PosY

/-! ## Binary floating point

The statements about accumulated values (the smoothed depth over frames, the stored particle
coordinates) depend on the rounding of JavaScript numbers.  A finite number is represented by
the rational it denotes, and every arithmetic operation returns the rounding of its exact
result. -/

/-- Rounding of a rational to the nearest integer, a tie going to the even neighbour. -/
def roundHalfEven (q : ℚ) : ℤ :=
  if q - ⌊q⌋ < 1 / 2 then ⌊q⌋
  else if 1 / 2 < q - ⌊q⌋ then ⌊q⌋ + 1
  else if ⌊q⌋ % 2 = 0 then ⌊q⌋ else ⌊q⌋ + 1

/-- IEEE-754 round-to-nearest-even of the exact value `q` in the binary format with `p`
significant bits and least normal exponent `emin` (below `2 ^ emin` the spacing stays
`2 ^ (emin - (p - 1))`: subnormal numbers).  The format's largest exponent is not represented:
a value beyond the finite range, which the machine rounds to an infinity, is rounded here as if
the exponent range were unbounded above. -/
def roundBinary (p : ℕ) (emin : ℤ) (q : ℚ) : ℚ :=
  roundHalfEven (q / 2 ^ (max (Int.log 2 |q|) emin - (p - 1)))
    * 2 ^ (max (Int.log 2 |q|) emin - (p - 1))

/-- The JavaScript number (binary64) that an operation with exact result `q` returns. -/
def f64 (q : ℚ) : ℚ := roundBinary 53 (-1022) q

/-- The value read back after `q` is stored in a `Float32Array` (binary32, as `Math.fround`). -/
def f32 (q : ℚ) : ℚ := roundBinary 24 (-126) q

/-- `Math.PI`: the binary64 number nearest to π. -/
def PI64 : ℚ := 884279719003555 / 281474976710656

/-- Modelled from the spec: `THREE.MathUtils.lerp(x, y, t)` (three.js, not under `src/`), the
convex combination `(1 - t) * x + t * y` of the spec, with each of its four operations rounded
to binary64. -/
def lerp64 (x y t : ℚ) : ℚ := f64 (f64 (f64 (1 - t) * x) + f64 (t * y))

/-- The value of `targetZ` (line 135) in binary64. -/
def targetZ64 (scrollY innerHeight : ℚ) : ℚ := f64 (4 - f64 (f64 (scrollY / innerHeight) * 10))

/-- The new value of `cameraZRef.current` after one tick (lines 135-136) in binary64, from its
old value `cameraZRef`; the literal `0.05` is the binary64 number nearest to 1/20. -/
def cameraZ64 (scrollY innerHeight cameraZRef : ℚ) : ℚ :=
  lerp64 cameraZRef (targetZ64 scrollY innerHeight) (f64 0.05)

/-- The value of `cameraZRef.current` after `n` ticks at a constant scroll offset. -/
def cameraZ64N (scrollY innerHeight cameraZRef : ℚ) : ℕ → ℚ
  | 0 => cameraZRef
  | n + 1 => cameraZ64 scrollY innerHeight (cameraZ64N scrollY innerHeight cameraZRef n)

/-! ## The particle field -/

/-- Body of the loop of lines 98-107 for index `i`, acting on the `positions` buffer, a
`Float32Array`: the operations are binary64 and the three stores round to binary32.
`random k` is the value returned by the `k`-th call of `Math.random` (counted from 0): the
iteration makes the calls `3 * i`, `3 * i + 1`, `3 * i + 2`, in this order.  `sin`, `cos` and
`acos` are `Math.sin`, `Math.cos` and `Math.acos`, whose results ECMAScript leaves to the
implementation. -/
def particleStep (sin cos acos : ℚ → ℚ) (random : ℕ → ℚ) (minRadius maxRadius : ℚ)
    (positions : List ℚ) (i : ℕ) : List ℚ :=
  let theta := f64 (f64 (random (3 * i) * 2) * PI64)
  let phi := acos (f64 (f64 (2 * random (3 * i + 1)) - 1))
  let radius := f64 (minRadius + f64 (random (3 * i + 2) * f64 (maxRadius - minRadius)))
  ((positions.set (i * 3) (f32 (f64 (f64 (radius * sin phi) * cos theta)))).set
    (i * 3 + 1) (f32 (f64 (f64 (radius * sin phi) * sin theta)))).set
    (i * 3 + 2) (f32 (f64 (radius * cos phi)))

/-- The buffer after the loop of lines 94-107: a zero-filled `Float32Array` of
`particlesCount * 3` numbers, then the loop body for `i = 0, ..., particlesCount - 1`. -/
def particlePositions (sin cos acos : ℚ → ℚ) (random : ℕ → ℚ) (particlesCount : ℕ)
    (minRadius maxRadius : ℚ) : List ℚ :=
  (List.range particlesCount).foldl (particleStep sin cos acos random minRadius maxRadius)
    (List.replicate (particlesCount * 3) 0)

/-- The buffer built by the application: `particlesCount = 1500`, `minRadius = 30`,
`maxRadius = 40` (lines 93, 95, 96). -/
def positions (sin cos acos : ℚ → ℚ) (random : ℕ → ℚ) : List ℚ :=
  particlePositions sin cos acos random 1500 30 40

/-- The `i`-th point of a buffer read with item size 3 (line 111). -/
def point (buf : List ℚ) (i : ℕ) : ℚ × ℚ × ℚ :=
  (buf.getD (3 * i) 0, buf.getD (3 * i + 1) 0, buf.getD (3 * i + 2) 0)

/-- The radius drawn for particle `i` (line 102). -/
def drawnRadius (random : ℕ → ℚ) (i : ℕ) : ℚ :=
  f64 (30 + f64 (random (3 * i + 2) * f64 (40 - 30)))

/-- A sequence of draws of `Math.random`: the third call returns `2 ^ (-49)` and every other
call returns 0. -/
def exampleDraws : ℕ → ℚ := fun k => if k = 2 then 1 / 2 ^ 49 else 0

/-! ## Auxiliary facts -/

theorem tweens_append {α : Type} (a b : List (Effect α)) :
    tweens (a ++ b) = tweens a ++ tweens b := by
  induction a with
  | nil => rfl
  | cons e es ih =>
    cases e <;> simp [tweens, ih]

theorem sectionMesh_inj {a b : ℤ} {m : Mesh} (ha : sectionMesh a = some m)
    (hb : sectionMesh b = some m) : a = b := by
  unfold sectionMesh at ha hb
  split_ifs at ha hb <;>
    first
      | omega
      | (cases ha; cases hb)

section ScrollFacts

variable {K : Type} [LinearOrderedField K] [FloorRing K]

theorem mathRound_bounds (x : K) :
    ((mathRound x : ℤ) : K) - 1 / 2 ≤ x ∧ x < ((mathRound x : ℤ) : K) + 1 / 2 := by
  unfold mathRound
  have h1 := Int.floor_le (x + 1 / 2)
  have h2 := Int.lt_floor_add_one (x + 1 / 2)
  constructor <;> linarith

theorem mathRound_nonneg {x : K} (hx : 0 ≤ x) : 0 ≤ mathRound x := by
  unfold mathRound
  apply Int.floor_nonneg.mpr
  linarith

theorem mathRound_intCast (n : ℤ) : mathRound (n : K) = n := by
  unfold mathRound
  rw [Int.floor_eq_iff]
  constructor <;> linarith

theorem onScroll_of_ne (h y : K) (s : ScrollState K) (hne : mathRound (y / h) ≠ s.currentSection) :
    onScroll h y s =
      ({ s with scrollYRef := y, currentSection := mathRound (y / h) },
        Effect.setCurrentSection (mathRound (y / h)) ::
          (if mathRound (y / h) = 1 ∧ s.mesh2Ref = true then
            [Effect.gsapTo Mesh.mesh2 1.5 6]
          else if mathRound (y / h) = 2 ∧ s.mesh3Ref = true then
            [Effect.gsapTo Mesh.mesh3 1.5 6]
          else [])) := by
  simp only [onScroll, if_pos hne]

theorem onScroll_of_eq (h y : K) (s : ScrollState K) (heq : mathRound (y / h) = s.currentSection) :
    onScroll h y s = ({ s with scrollYRef := y }, []) := by
  simp only [onScroll, ne_eq, heq, not_true_eq_false, if_false]

theorem onScroll_scrollYRef (h y : K) (s : ScrollState K) :
    (onScroll h y s).1.scrollYRef = y := by
  by_cases hne : mathRound (y / h) = s.currentSection
  · rw [onScroll_of_eq h y s hne]
  · rw [onScroll_of_ne h y s hne]

theorem onScroll_currentSection (h y : K) (s : ScrollState K) :
    (onScroll h y s).1.currentSection = mathRound (y / h) := by
  by_cases hne : mathRound (y / h) = s.currentSection
  · rw [onScroll_of_eq h y s hne]
    exact hne.symm
  · rw [onScroll_of_ne h y s hne]

theorem onScroll_mesh2Ref (h y : K) (s : ScrollState K) :
    (onScroll h y s).1.mesh2Ref = s.mesh2Ref := by
  by_cases hne : mathRound (y / h) = s.currentSection
  · rw [onScroll_of_eq h y s hne]
  · rw [onScroll_of_ne h y s hne]

theorem onScroll_mesh3Ref (h y : K) (s : ScrollState K) :
    (onScroll h y s).1.mesh3Ref = s.mesh3Ref := by
  by_cases hne : mathRound (y / h) = s.currentSection
  · rw [onScroll_of_eq h y s hne]
  · rw [onScroll_of_ne h y s hne]

theorem onScroll_tweens_length (h y : K) (s : ScrollState K)
    (h2 : s.mesh2Ref = true) (h3 : s.mesh3Ref = true) :
    (tweens (onScroll h y s).2).length =
      if mathRound (y / h) ≠ s.currentSection ∧
        (mathRound (y / h) = 1 ∨ mathRound (y / h) = 2) then 1 else 0 := by
  by_cases hne : mathRound (y / h) = s.currentSection
  · rw [onScroll_of_eq h y s hne]
    simp [tweens, hne]
  · rw [onScroll_of_ne h y s hne]
    by_cases c1 : mathRound (y / h) = 1
    · have hne1 : ¬ (1 : ℤ) = s.currentSection := by rw [← c1]; exact hne
      simp [tweens, c1, h2, hne1]
    · by_cases c2 : mathRound (y / h) = 2
      · have hne2 : ¬ (2 : ℤ) = s.currentSection := by rw [← c2]; exact hne
        simp [tweens, c2, h3, hne2]
      · simp [tweens, c1, c2, hne]

theorem mathRound_self_div {h : K} (hh : 0 < h) : mathRound (h / h) = 1 := by
  rw [div_self hh.ne']
  exact_mod_cast mathRound_intCast (K := K) 1

theorem mathRound_two_mul_div {h : K} (hh : 0 < h) : mathRound (2 * h / h) = 2 := by
  rw [mul_div_assoc, div_self hh.ne', mul_one]
  exact_mod_cast mathRound_intCast (K := K) 2

end ScrollFacts

/-! ## Scroll tracker and section transitions -/

section ScrollClaims

variable {K : Type} [LinearOrderedField K] [FloorRing K]

/-- C1: for a positive section height and a scroll event at a non-negative offset, the state
after `onScroll` holds the offset of the event, its section index is `Math.round` of
offset / height, that is the integer `n` with `n - 1/2 ≤ offset / height < n + 1/2` (halves
rounded up), and this index is non-negative, whatever the section index was before. -/
theorem onScroll_section_index (h y : K) (s : ScrollState K) (hh : 0 < h) (hy : 0 ≤ y) :
    (onScroll h y s).1.scrollYRef = y ∧
    (onScroll h y s).1.currentSection = mathRound (y / h) ∧
    (((onScroll h y s).1.currentSection : K) - 1 / 2 ≤ y / h ∧
      y / h < ((onScroll h y s).1.currentSection : K) + 1 / 2) ∧
    0 ≤ (onScroll h y s).1.currentSection := by
  refine ⟨onScroll_scrollYRef h y s, onScroll_currentSection h y s, ?_, ?_⟩
  · rw [onScroll_currentSection]
    exact mathRound_bounds (y / h)
  · rw [onScroll_currentSection]
    exact mathRound_nonneg (div_nonneg hy hh.le)

theorem onScroll_section_index_witness :
    (0 : ℚ) < 800 ∧ (0 : ℚ) ≤ 1200 ∧
    ((onScroll (800 : ℚ) 1200 initialScroll).1.scrollYRef = 1200 ∧
      (onScroll (800 : ℚ) 1200 initialScroll).1.currentSection = mathRound ((1200 : ℚ) / 800) ∧
      ((((onScroll (800 : ℚ) 1200 initialScroll).1.currentSection : ℤ) : ℚ) - 1 / 2
          ≤ (1200 : ℚ) / 800 ∧
        (1200 : ℚ) / 800
          < (((onScroll (800 : ℚ) 1200 initialScroll).1.currentSection : ℤ) : ℚ) + 1 / 2) ∧
      0 ≤ (onScroll (800 : ℚ) 1200 initialScroll).1.currentSection) :=
  ⟨by norm_num, by norm_num,
    onScroll_section_index 800 1200 initialScroll (by norm_num) (by norm_num)⟩

/-- C2: for a positive section height, when `Math.round(offset / height)` differs from the
current section index by exactly 1, `onScroll` calls `setCurrentSection` exactly once, with the new index. -/
theorem onScroll_adjacent_notifies_once (h y : K) (s : ScrollState K) (_hh : 0 < h)
    (hstep : |mathRound (y / h) - s.currentSection| = 1) :
    notifications (onScroll h y s).2 = [mathRound (y / h)] := by
  have hne : mathRound (y / h) ≠ s.currentSection := by
    intro e
    rw [e, sub_self, abs_zero] at hstep
    exact absurd hstep (by decide)
  rw [onScroll_of_ne h y s hne]
  simp only [notifications]
  split_ifs <;> simp [notifications]

theorem mathRound_one_rat : mathRound ((800 : ℚ) / 800) = 1 := by
  unfold mathRound
  rw [Int.floor_eq_iff]
  constructor <;> norm_num

theorem mathRound_two_rat : mathRound ((1600 : ℚ) / 800) = 2 := by
  unfold mathRound
  rw [Int.floor_eq_iff]
  constructor <;> norm_num

theorem mathRound_three_rat : mathRound ((2400 : ℚ) / 800) = 3 := by
  unfold mathRound
  rw [Int.floor_eq_iff]
  constructor <;> norm_num

theorem onScroll_adjacent_notifies_once_witness :
    (0 : ℚ) < 800 ∧
    |mathRound ((800 : ℚ) / 800) - (initialScroll : ScrollState ℚ).currentSection| = 1 ∧
    notifications (onScroll (800 : ℚ) 800 initialScroll).2 = [mathRound ((800 : ℚ) / 800)] :=
  ⟨by norm_num, by rw [mathRound_one_rat]; rfl,
    onScroll_adjacent_notifies_once 800 800 initialScroll (by norm_num)
      (by rw [mathRound_one_rat]; rfl)⟩

/-- C3: for a positive section height, when one scroll event moves the section index by 2 or
more, `onScroll` calls `setCurrentSection` exactly once, with the final index; every animation request it makes targets
the mesh bound to the final index, and no request targets the mesh bound to a section strictly
between the old and the new index.  For the jump from section 0 to offset `2 * height` (with
`mesh3Ref` set) the calls are exactly the notification of 2 and the request on `mesh3`: there is
none on `mesh2`. -/
theorem onScroll_jump_skips_intermediate (h y : K) (s s0 : ScrollState K) (hh : 0 < h)
    (hjump : 2 ≤ |mathRound (y / h) - s.currentSection|)
    (h0 : s0.currentSection = 0) (hm3 : s0.mesh3Ref = true) :
    notifications (onScroll h y s).2 = [mathRound (y / h)] ∧
    (∀ t ∈ tweens (onScroll h y s).2, sectionMesh (mathRound (y / h)) = some t.1) ∧
    (∀ k : ℤ, (s.currentSection < k ∧ k < mathRound (y / h)) ∨
        (mathRound (y / h) < k ∧ k < s.currentSection) →
      ∀ m, sectionMesh k = some m → ∀ t ∈ tweens (onScroll h y s).2, t.1 ≠ m) ∧
    (onScroll h (2 * h) s0).1.currentSection = 2 ∧
    (onScroll h (2 * h) s0).2 =
      [Effect.setCurrentSection 2, Effect.gsapTo Mesh.mesh3 1.5 6] ∧
    (∀ t ∈ tweens (onScroll h (2 * h) s0).2, t.1 ≠ Mesh.mesh2) := by
  have hne : mathRound (y / h) ≠ s.currentSection := by
    intro e
    rw [e, sub_self, abs_zero] at hjump
    exact absurd hjump (by decide)
  have htw : ∀ t ∈ tweens (onScroll h y s).2, sectionMesh (mathRound (y / h)) = some t.1 := by
    rw [onScroll_of_ne h y s hne]
    intro t ht
    by_cases c1 : mathRound (y / h) = 1
    · by_cases b2 : s.mesh2Ref = true
      · simp [tweens, c1, b2] at ht
        simp [sectionMesh, c1, ht]
      · simp [tweens, c1, b2] at ht
    · by_cases c2 : mathRound (y / h) = 2
      · by_cases b3 : s.mesh3Ref = true
        · simp [tweens, c2, b3] at ht
          simp [sectionMesh, c2, ht]
        · simp [tweens, c2, b3] at ht
      · simp [tweens, c1, c2] at ht
  have h2 : mathRound (2 * h / h) = 2 := mathRound_two_mul_div hh
  have hne0 : mathRound (2 * h / h) ≠ s0.currentSection := by
    rw [h2, h0]
    decide
  have hcalls : (onScroll h (2 * h) s0).2 =
      [Effect.setCurrentSection 2, Effect.gsapTo Mesh.mesh3 1.5 6] := by
    rw [onScroll_of_ne h (2 * h) s0 hne0, h2]
    simp [hm3]
  refine ⟨?_, htw, ?_, ?_, hcalls, ?_⟩
  · rw [onScroll_of_ne h y s hne]
    simp only [notifications]
    split_ifs <;> simp [notifications]
  · intro k hk m hm t ht hcontra
    have e := htw t ht
    rw [hcontra] at e
    have hkeq : k = mathRound (y / h) := sectionMesh_inj hm e
    rcases hk with hk | hk
    · exact hk.2.ne hkeq
    · exact hk.1.ne' hkeq
  · rw [onScroll_currentSection, h2]
  · rw [hcalls]
    intro t ht
    simp [tweens] at ht
    simp [ht]

theorem onScroll_jump_skips_intermediate_witness :
    (0 : ℚ) < 800 ∧
    2 ≤ |mathRound ((1600 : ℚ) / 800) - (initialScroll : ScrollState ℚ).currentSection| ∧
    (initialScroll : ScrollState ℚ).currentSection = 0 ∧
    (initialScroll : ScrollState ℚ).mesh3Ref = true ∧
    (notifications (onScroll (800 : ℚ) 1600 initialScroll).2 = [mathRound ((1600 : ℚ) / 800)] ∧
      (∀ t ∈ tweens (onScroll (800 : ℚ) 1600 initialScroll).2,
        sectionMesh (mathRound ((1600 : ℚ) / 800)) = some t.1) ∧
      (∀ k : ℤ, ((initialScroll : ScrollState ℚ).currentSection < k ∧
            k < mathRound ((1600 : ℚ) / 800)) ∨
          (mathRound ((1600 : ℚ) / 800) < k ∧
            k < (initialScroll : ScrollState ℚ).currentSection) →
        ∀ m, sectionMesh k = some m →
          ∀ t ∈ tweens (onScroll (800 : ℚ) 1600 initialScroll).2, t.1 ≠ m) ∧
      (onScroll (800 : ℚ) (2 * 800) initialScroll).1.currentSection = 2 ∧
      (onScroll (800 : ℚ) (2 * 800) initialScroll).2 =
        [Effect.setCurrentSection 2, Effect.gsapTo Mesh.mesh3 1.5 6] ∧
      (∀ t ∈ tweens (onScroll (800 : ℚ) (2 * 800) initialScroll).2, t.1 ≠ Mesh.mesh2)) :=
  ⟨by norm_num, by rw [mathRound_two_rat]; decide, rfl, rfl,
    onScroll_jump_skips_intermediate 800 1600 initialScroll initialScroll (by norm_num)
      (by rw [mathRound_two_rat]; decide) rfl rfl⟩

/-- C4: for a positive viewport height, from section 0 with `mesh2Ref` set, a scroll event at
offset = viewport height makes the section index 1 and makes exactly one animation request: `mesh2`, rotation about y, relative
delta `+6`, duration `1.5`.  Likewise every event that enters section 2 (with `mesh3Ref` set)
makes exactly one request, on `mesh3`, with the same delta and duration. -/
theorem onScroll_enter_bound_section (h y : K) (s s2 : ScrollState K) (hh : 0 < h)
    (h0 : s.currentSection = 0) (hm2 : s.mesh2Ref = true)
    (hy : mathRound (y / h) = 2) (hcur : s2.currentSection ≠ 2) (hm3 : s2.mesh3Ref = true) :
    (onScroll h h s).1.currentSection = 1 ∧
    (onScroll h h s).2 = [Effect.setCurrentSection 1, Effect.gsapTo Mesh.mesh2 1.5 6] ∧
    tweens (onScroll h h s).2 = [(Mesh.mesh2, 1.5, 6)] ∧
    (onScroll h y s2).1.currentSection = 2 ∧
    tweens (onScroll h y s2).2 = [(Mesh.mesh3, 1.5, 6)] := by
  have h1 : mathRound (h / h) = 1 := mathRound_self_div hh
  have hne1 : mathRound (h / h) ≠ s.currentSection := by
    rw [h1, h0]
    decide
  have hne2 : mathRound (y / h) ≠ s2.currentSection := by
    rw [hy]
    exact fun e => hcur e.symm
  have hcalls : (onScroll h h s).2 =
      [Effect.setCurrentSection 1, Effect.gsapTo Mesh.mesh2 1.5 6] := by
    rw [onScroll_of_ne h h s hne1, h1]
    simp [hm2]
  refine ⟨?_, hcalls, ?_, ?_, ?_⟩
  · rw [onScroll_currentSection, h1]
  · rw [hcalls]
    rfl
  · rw [onScroll_currentSection, hy]
  · rw [onScroll_of_ne h y s2 hne2, hy]
    simp [tweens, hm3]

theorem onScroll_enter_bound_section_witness :
    (0 : ℚ) < 800 ∧
    (initialScroll : ScrollState ℚ).currentSection = 0 ∧
    (initialScroll : ScrollState ℚ).mesh2Ref = true ∧
    mathRound ((1600 : ℚ) / 800) = 2 ∧
    (initialScroll : ScrollState ℚ).currentSection ≠ 2 ∧
    (initialScroll : ScrollState ℚ).mesh3Ref = true ∧
    ((onScroll (800 : ℚ) 800 initialScroll).1.currentSection = 1 ∧
      (onScroll (800 : ℚ) 800 initialScroll).2 =
        [Effect.setCurrentSection 1, Effect.gsapTo Mesh.mesh2 1.5 6] ∧
      tweens (onScroll (800 : ℚ) 800 initialScroll).2 = [(Mesh.mesh2, 1.5, 6)] ∧
      (onScroll (800 : ℚ) 1600 initialScroll).1.currentSection = 2 ∧
      tweens (onScroll (800 : ℚ) 1600 initialScroll).2 = [(Mesh.mesh3, 1.5, 6)]) :=
  ⟨by norm_num, rfl, rfl, mathRound_two_rat, by decide, rfl,
    onScroll_enter_bound_section 800 1600 initialScroll initialScroll (by norm_num) rfl rfl
      mathRound_two_rat (by decide) rfl⟩

/-- C5: for a positive section height, when the new section index has no binding (it is 0, or
at least 3), `onScroll` makes no animation request: its only call, if any, is the section-change notification; it has no error
outcome, and the state holds the offset of the event and the new section index. -/
theorem onScroll_unbound_section_silent (h y : K) (s : ScrollState K) (_hh : 0 < h)
    (hnb : mathRound (y / h) = 0 ∨ 3 ≤ mathRound (y / h)) :
    tweens (onScroll h y s).2 = [] ∧
    (onScroll h y s).2 =
      (if mathRound (y / h) ≠ s.currentSection then
        [Effect.setCurrentSection (mathRound (y / h))] else []) ∧
    (onScroll h y s).1.scrollYRef = y ∧
    (onScroll h y s).1.currentSection = mathRound (y / h) := by
  have c1 : mathRound (y / h) ≠ 1 := by omega
  have c2 : mathRound (y / h) ≠ 2 := by omega
  have hcalls : (onScroll h y s).2 =
      (if mathRound (y / h) ≠ s.currentSection then
        [Effect.setCurrentSection (mathRound (y / h))] else []) := by
    by_cases hne : mathRound (y / h) = s.currentSection
    · rw [onScroll_of_eq h y s hne]
      simp [hne]
    · rw [onScroll_of_ne h y s hne]
      simp [c1, c2, hne]
  refine ⟨?_, hcalls, onScroll_scrollYRef h y s, onScroll_currentSection h y s⟩
  rw [hcalls]
  split_ifs <;> rfl

theorem onScroll_unbound_section_silent_witness :
    (0 : ℚ) < 800 ∧
    (mathRound ((2400 : ℚ) / 800) = 0 ∨ 3 ≤ mathRound ((2400 : ℚ) / 800)) ∧
    (tweens (onScroll (800 : ℚ) 2400 initialScroll).2 = [] ∧
      (onScroll (800 : ℚ) 2400 initialScroll).2 =
        (if mathRound ((2400 : ℚ) / 800) ≠ (initialScroll : ScrollState ℚ).currentSection then
          [Effect.setCurrentSection (mathRound ((2400 : ℚ) / 800))] else []) ∧
      (onScroll (800 : ℚ) 2400 initialScroll).1.scrollYRef = 2400 ∧
      (onScroll (800 : ℚ) 2400 initialScroll).1.currentSection
        = mathRound ((2400 : ℚ) / 800)) :=
  ⟨by norm_num, Or.inr (by rw [mathRound_three_rat]),
    onScroll_unbound_section_silent 800 2400 initialScroll (by norm_num)
      (Or.inr (by rw [mathRound_three_rat]))⟩

theorem dispatch_scroll_effect (h y : K) (a : App K)
    (hr : a.rendered = a.listener.currentSection) :
    runApp h [AppEvent.scroll y, AppEvent.effect] a =
      ({ listener := (onScroll h y a.listener).1
         rendered := (onScroll h y a.listener).1.currentSection },
        (onScroll h y a.listener).2) := by
  by_cases hne : mathRound (y / h) = a.listener.currentSection
  · simp only [runApp, dispatch, List.append_nil]
    rw [onScroll_of_eq h y _ hne]
    simp [notifications, hr]
  · simp only [runApp, dispatch, List.append_nil]
    rw [onScroll_of_ne h y _ hne]
    simp [notifications]

theorem runApp_settled_cons (h y : K) (ys : List K) (a : App K) :
    runApp h (settled (y :: ys)) a =
      ((runApp h (settled ys) (runApp h [AppEvent.scroll y, AppEvent.effect] a).1).1,
        (runApp h [AppEvent.scroll y, AppEvent.effect] a).2
          ++ (runApp h (settled ys) (runApp h [AppEvent.scroll y, AppEvent.effect] a).1).2) := by
  simp [settled, runApp, List.append_assoc]

theorem runApp_settled_tweens_length (h : K) (ys : List K) (a : App K)
    (hr : a.rendered = a.listener.currentSection)
    (h2 : a.listener.mesh2Ref = true) (h3 : a.listener.mesh3Ref = true) :
    (tweens (runApp h (settled ys) a).2).length
      = boundCrossings h a.listener.currentSection ys := by
  induction ys generalizing a with
  | nil => rfl
  | cons y ys ih =>
    rw [runApp_settled_cons, dispatch_scroll_effect h y a hr]
    simp only [tweens_append, List.length_append, boundCrossings]
    rw [ih _ rfl (by rw [onScroll_mesh2Ref]; exact h2) (by rw [onScroll_mesh3Ref]; exact h3),
      onScroll_tweens_length h y _ h2 h3, onScroll_currentSection]

/-- C9 (as amended): for a positive section height, over every finite sequence of scroll events
applied from the initial state in which the effect of lines 173-192 re-runs after each event,
the number of animation requests equals the number of events at which
`Math.round(offset / height)` differs from the section index left by the previous event and the
new index is 1 or 2.  In any state with both refs set, a scroll event
whose rounded quotient equals the section index captured by the listener issues no request, and
one that differs from it and is 1 or 2 issues exactly one, whatever was requested before. -/
theorem runApp_settled_once_per_crossing (h y : K) (events : List K) (a : App K) (_hh : 0 < h)
    (h2 : a.listener.mesh2Ref = true) (h3 : a.listener.mesh3Ref = true) :
    (tweens (runApp h (settled events) initialApp).2).length = boundCrossings h 0 events ∧
    (tweens (dispatch h a (AppEvent.scroll y)).2).length =
      (if mathRound (y / h) ≠ a.listener.currentSection ∧
          (mathRound (y / h) = 1 ∨ mathRound (y / h) = 2) then 1 else 0) ∧
    (mathRound (y / h) = a.listener.currentSection →
      (dispatch h a (AppEvent.scroll y)).2 = []) := by
  refine ⟨runApp_settled_tweens_length h events initialApp rfl rfl rfl, ?_, ?_⟩
  · exact onScroll_tweens_length h y a.listener h2 h3
  · intro hstay
    show (onScroll h y a.listener).2 = []
    rw [onScroll_of_eq h y _ hstay]

theorem runApp_settled_once_per_crossing_witness :
    (0 : ℚ) < 800 ∧
    (initialApp : App ℚ).listener.mesh2Ref = true ∧
    (initialApp : App ℚ).listener.mesh3Ref = true ∧
    ((tweens (runApp (800 : ℚ) (settled [800, 1600, 800]) initialApp).2).length
        = boundCrossings (800 : ℚ) 0 [800, 1600, 800] ∧
      (tweens (dispatch (800 : ℚ) initialApp (AppEvent.scroll 1600)).2).length =
        (if mathRound ((1600 : ℚ) / 800) ≠ (initialApp : App ℚ).listener.currentSection ∧
            (mathRound ((1600 : ℚ) / 800) = 1 ∨ mathRound ((1600 : ℚ) / 800) = 2)
          then 1 else 0) ∧
      (mathRound ((1600 : ℚ) / 800) = (initialApp : App ℚ).listener.currentSection →
        (dispatch (800 : ℚ) initialApp (AppEvent.scroll 1600)).2 = [])) :=
  ⟨by norm_num, rfl, rfl,
    runApp_settled_once_per_crossing 800 1600 [800, 1600, 800] initialApp (by norm_num)
      rfl rfl⟩

theorem mathRound_rat_one : mathRound (1 : ℚ) = 1 := by
  unfold mathRound
  rw [Int.floor_eq_iff]
  constructor <;> norm_num

/-- C9 (as stated) fails: two scroll events at offset 800 (height 800) that arrive before the
effect re-runs both compare with the captured section 0, so two requests on `mesh2` are issued,
while only the first event differs from the section index left by the previous event. -/
theorem runApp_stale_listener_counterexample :
    tweens (runApp (800 : ℚ) [AppEvent.scroll 800, AppEvent.scroll 800] initialApp).2 =
      [(Mesh.mesh2, 1.5, 6), (Mesh.mesh2, 1.5, 6)] ∧
    boundCrossings (800 : ℚ) 0 [800, 800] = 1 ∧
    (tweens (runApp (800 : ℚ) [AppEvent.scroll 800, AppEvent.scroll 800] initialApp).2).length ≠
      boundCrossings (800 : ℚ) 0 [800, 800] := by
  have hne : mathRound ((800 : ℚ) / 800) ≠ (initialScroll : ScrollState ℚ).currentSection := by
    rw [mathRound_one_rat]
    decide
  have h1 : tweens (runApp (800 : ℚ) [AppEvent.scroll 800, AppEvent.scroll 800] initialApp).2 =
      [(Mesh.mesh2, 1.5, 6), (Mesh.mesh2, 1.5, 6)] := by
    simp only [runApp, dispatch, initialApp, List.append_nil]
    rw [onScroll_of_ne (800 : ℚ) 800 initialScroll hne]
    simp only [mathRound_one_rat]
    have hne2 : mathRound ((800 : ℚ) / 800) ≠
        ({ scrollYRef := (800 : ℚ), currentSection := (initialScroll : ScrollState ℚ).currentSection,
           mesh2Ref := (initialScroll : ScrollState ℚ).mesh2Ref,
           mesh3Ref := (initialScroll : ScrollState ℚ).mesh3Ref } : ScrollState ℚ).currentSection :=
      hne
    rw [onScroll_of_ne (800 : ℚ) 800 _ hne2]
    simp [tweens, mathRound_rat_one, initialScroll]
  have h2 : boundCrossings (800 : ℚ) 0 [800, 800] = 1 := by
    simp [boundCrossings, mathRound_rat_one]
  refine ⟨h1, h2, ?_⟩
  rw [h1, h2]
  decide

end ScrollClaims

/-! ## Camera motion and render loop -/

section CameraClaims

variable {K : Type} [LinearOrderedField K]

theorem animate_cameraZRef (sin : K → K) (t y h : K) (s : Scene K) :
    (animate sin t y h s).cameraZRef = lerp s.cameraZRef (targetDepth y h) 0.05 := rfl

/-- C6: for a positive viewport height, one tick of the render loop sets the smoothed depth to
`lerp(s, targetDepth, 0.05) = 0.95 * s + 0.05 * targetDepth` with
`targetDepth = 4 - (rawOffset / h) * 10`, writes that same value to the z coordinate of the
camera, and the smoothed depth starts at 4. -/
theorem animate_camera_depth (sin : K → K) (time rawOffset h : K) (s : Scene K) (_hh : 0 < h) :
    (animate sin time rawOffset h s).cameraZRef =
      lerp s.cameraZRef (4 - (rawOffset / h) * 10) 0.05 ∧
    (animate sin time rawOffset h s).cameraZRef =
      0.95 * s.cameraZRef + 0.05 * (4 - (rawOffset / h) * 10) ∧
    (animate sin time rawOffset h s).cameraPosZ = (animate sin time rawOffset h s).cameraZRef ∧
    (initialScene : Scene K).cameraZRef = 4 := by
  refine ⟨rfl, ?_, rfl, rfl⟩
  rw [animate_cameraZRef]
  unfold lerp targetDepth
  norm_num

theorem animate_camera_depth_witness :
    (0 : ℝ) < 800 ∧
    ((animate Real.sin 0 400 800 initialScene).cameraZRef =
        lerp (initialScene : Scene ℝ).cameraZRef (4 - ((400 : ℝ) / 800) * 10) 0.05 ∧
      (animate Real.sin 0 400 800 initialScene).cameraZRef =
        0.95 * (initialScene : Scene ℝ).cameraZRef + 0.05 * (4 - ((400 : ℝ) / 800) * 10) ∧
      (animate Real.sin 0 400 800 initialScene).cameraPosZ =
        (animate Real.sin 0 400 800 initialScene).cameraZRef ∧
      (initialScene : Scene ℝ).cameraZRef = 4) :=
  ⟨by norm_num, animate_camera_depth Real.sin 0 400 800 initialScene (by norm_num)⟩

/-- C10 (as amended): on every tick at elapsed time `t`, the rotation about y of each cube is
increased by exactly 0.01, and the cube with index `i` (0, 1, 2) has its vertical position set
to `sin(t + i) * 0.1`. -/
theorem animate_mesh_rotation_and_bob (sin : K → K) (t rawOffset h : K) (s : Scene K)
    (m : Mesh) :
    (animate sin t rawOffset h s).rotY m = s.rotY m + 0.01 ∧
    (animate sin t rawOffset h s).posY m = sin (t + (m.index : K)) * 0.1 := by
  cases m <;> constructor <;> simp [animate, Scene.rotY, Scene.posY, Mesh.index]

/-- C10 (as stated) fails: at `t = π / 2` the cube of index 0 is set to height `0.1`, which is
not `sin(t + 0) = 1`. -/
theorem animate_bob_amplitude_counterexample :
    (animate Real.sin (Real.pi / 2) 0 800 initialScene).posY Mesh.mesh1 = 0.1 ∧
    Real.sin (Real.pi / 2 + ((Mesh.index Mesh.mesh1 : ℕ) : ℝ)) = 1 ∧
    (animate Real.sin (Real.pi / 2) 0 800 initialScene).posY Mesh.mesh1 ≠
      Real.sin (Real.pi / 2 + ((Mesh.index Mesh.mesh1 : ℕ) : ℝ)) := by
  have h1 : (animate Real.sin (Real.pi / 2) 0 800 initialScene).posY Mesh.mesh1 = 0.1 := by
    simp [animate, Scene.posY]
  have h2 : Real.sin (Real.pi / 2 + ((Mesh.index Mesh.mesh1 : ℕ) : ℝ)) = 1 := by
    simp [Mesh.index]
  refine ⟨h1, h2, ?_⟩
  rw [h1, h2]
  norm_num

end CameraClaims

/-! ## Buffers -/

theorem getD_set {α : Type} (l : List α) (i j : ℕ) (a d : α) :
    (l.set i a).getD j d = if i = j ∧ i < l.length then a else l.getD j d := by
  simp only [List.getD_eq_getElem?_getD, List.getElem?_set]
  by_cases hij : i = j
  · subst hij
    by_cases hl : i < l.length
    · simp [hl]
    · simp [hl]
      rw [List.getElem?_eq_none (by omega)]
      rfl
  · simp [hij]

/-! ## Facts about rounding -/

theorem roundHalfEven_sub_le (q : ℚ) : |(roundHalfEven q : ℚ) - q| ≤ 1 / 2 := by
  unfold roundHalfEven
  have h1 := Int.floor_le q
  have h2 := Int.lt_floor_add_one q
  split_ifs with a b c
  · rw [abs_le]; constructor <;> linarith
  · push_cast; rw [abs_le]; constructor <;> linarith
  · rw [abs_le]; constructor <;> linarith
  · push_cast; rw [abs_le]; constructor <;> linarith

theorem roundHalfEven_eq {q : ℚ} {n : ℤ} (h1 : (n : ℚ) - 1 / 2 < q) (h2 : q < n + 1 / 2) :
    roundHalfEven q = n := by
  have hb := abs_le.mp (roundHalfEven_sub_le q)
  have l1 : ((roundHalfEven q : ℤ) : ℚ) < ((n + 1 : ℤ) : ℚ) := by push_cast; linarith [hb.2]
  have l2 : ((n - 1 : ℤ) : ℚ) < ((roundHalfEven q : ℤ) : ℚ) := by push_cast; linarith [hb.1]
  have l1' := Int.cast_lt.mp l1
  have l2' := Int.cast_lt.mp l2
  omega

theorem roundHalfEven_le_int {q : ℚ} {n : ℤ} (h : q ≤ n) : roundHalfEven q ≤ n := by
  have f1 : ⌊q⌋ ≤ n := by
    have := Int.floor_le_floor (α := ℚ) h
    simpa using this
  unfold roundHalfEven
  rcases eq_or_lt_of_le h with e | l
  · have : q - ⌊q⌋ < 1 / 2 := by rw [e]; simp
    rw [if_pos this]
    exact f1
  · have f2 : ⌊q⌋ < n := Int.floor_lt.mpr l
    split_ifs <;> omega

theorem int_le_roundHalfEven {q : ℚ} {n : ℤ} (h : (n : ℚ) ≤ q) : n ≤ roundHalfEven q := by
  have f1 : n ≤ ⌊q⌋ := Int.le_floor.mpr h
  unfold roundHalfEven
  split_ifs <;> omega

theorem roundBinary_zero (p : ℕ) (emin : ℤ) : roundBinary p emin 0 = 0 := by
  simp [roundBinary, roundHalfEven]

theorem log2_eq {x : ℚ} {e : ℤ} (h1 : (2 : ℚ) ^ e ≤ x) (h2 : x < 2 ^ (e + 1)) :
    Int.log 2 x = e := by
  have hx : 0 < x := lt_of_lt_of_le (by positivity) h1
  have a := (Int.zpow_le_iff_le_log (b := 2) (by norm_num) hx).mp (by exact_mod_cast h1)
  have b := (Int.lt_zpow_iff_log_lt (b := 2) (by norm_num) hx).mp (by exact_mod_cast h2)
  omega

/-- Evaluation of `f64` at a positive value whose binade and rounded significand are given. -/
theorem f64_eq_pos {x : ℚ} (e n : ℤ) (he : -1022 ≤ e) (h1 : (2 : ℚ) ^ e ≤ x)
    (h2 : x < 2 ^ (e + 1)) (h3 : (n : ℚ) - 1 / 2 < x / 2 ^ (e - 52))
    (h4 : x / 2 ^ (e - 52) < n + 1 / 2) : f64 x = n * 2 ^ (e - 52) := by
  have hx : 0 < x := lt_of_lt_of_le (by positivity) h1
  unfold f64 roundBinary
  rw [abs_of_pos hx, log2_eq h1 h2, max_eq_left he]
  have : ((53 : ℕ) : ℤ) - 1 = 52 := by norm_num
  rw [this, roundHalfEven_eq h3 h4]

/-- The spacing of the format at `q` is at most `2 ^ (1 - p) * |q|` in the normal range and
`2 ^ (emin - (p - 1))` below it; the rounding error is at most half of it. -/
theorem roundBinary_err (p : ℕ) (emin : ℤ) (q : ℚ) :
    |roundBinary p emin q - q| ≤ 2 ^ (-(p : ℤ)) * |q| + 2 ^ (emin - p) := by
  by_cases hq : q = 0
  · subst hq
    rw [roundBinary_zero]
    simp only [sub_zero, abs_zero, mul_zero, zero_add]
    positivity
  have hqa : 0 < |q| := abs_pos.mpr hq
  set e := max (Int.log 2 |q|) emin with he
  have hu : (0 : ℚ) < 2 ^ (e - ((p : ℤ) - 1)) := by positivity
  have herr : |roundBinary p emin q - q| ≤ 2 ^ (e - (p : ℤ)) := by
    have hr := roundHalfEven_sub_le (q / 2 ^ (e - ((p : ℤ) - 1)))
    have e1 : roundBinary p emin q - q =
        ((roundHalfEven (q / 2 ^ (e - ((p : ℤ) - 1))) : ℚ) - q / 2 ^ (e - ((p : ℤ) - 1)))
          * 2 ^ (e - ((p : ℤ) - 1)) := by
      unfold roundBinary
      rw [← he]
      field_simp
    rw [e1, abs_mul, abs_of_pos hu]
    have e2 : (2 : ℚ) ^ (e - (p : ℤ)) = 1 / 2 * 2 ^ (e - ((p : ℤ) - 1)) := by
      rw [show e - ((p : ℤ) - 1) = (e - p) + 1 by ring, zpow_add_one₀ (by norm_num)]
      ring
    rw [e2]
    exact mul_le_mul_of_nonneg_right hr hu.le
  refine herr.trans ?_
  rcases le_total emin (Int.log 2 |q|) with hle | hle
  · have : e = Int.log 2 |q| := by rw [he]; exact max_eq_left hle
    rw [this]
    have hlog : (2 : ℚ) ^ Int.log 2 |q| ≤ |q| := by
      exact_mod_cast Int.zpow_log_le_self (b := 2) (by norm_num) hqa
    have e3 : (2 : ℚ) ^ (Int.log 2 |q| - (p : ℤ)) = 2 ^ (-(p : ℤ)) * 2 ^ Int.log 2 |q| := by
      rw [sub_eq_add_neg, zpow_add₀ (by norm_num)]
      ring
    rw [e3]
    have hp : (0 : ℚ) < 2 ^ (-(p : ℤ)) := by positivity
    have hη : (0 : ℚ) < 2 ^ (emin - (p : ℤ)) := by positivity
    nlinarith [mul_le_mul_of_nonneg_left hlog hp.le]
  · have : e = emin := by rw [he]; exact max_eq_right hle
    rw [this]
    have hp : (0 : ℚ) ≤ 2 ^ (-(p : ℤ)) * |q| := by positivity
    linarith

theorem f64_err (q : ℚ) : |f64 q - q| ≤ 2 ^ (-53 : ℤ) * |q| + 2 ^ (-1075 : ℤ) := by
  have h := roundBinary_err 53 (-1022) q
  norm_num at h
  unfold f64
  norm_num
  exact h

/-! ## Smoothed camera depth in binary64 -/

theorem f64_literal_005 : f64 0.05 = 3602879701896397 / 72057594037927936 := by
  rw [f64_eq_pos (-5) 7205759403792794 (by norm_num) (by norm_num) (by norm_num) (by norm_num)
    (by norm_num)]
  norm_num

theorem f64_one_sub_005 : f64 (1 - f64 0.05) = 4278419646001971 / 4503599627370496 := by
  rw [f64_literal_005,
    f64_eq_pos (-1) 8556839292003942 (by norm_num) (by norm_num) (by norm_num) (by norm_num)
      (by norm_num)]
  norm_num

/-- Error propagation for `(1 - t) * x + t * y` with the two rounded constants and three rounded
operations, with unit roundoff `u` and underflow threshold `η`. -/
theorem lerp_rounding_bound (u η s t a b n : ℚ) (hu0 : 0 < u) (hu1 : u ≤ 1) (hη0 : 0 < η)
    (d1 : |a - (19 / 20 - 2 / 5 * u) * s| ≤ u * |(19 / 20 - 2 / 5 * u) * s| + η)
    (d2 : |b - (1 / 20 + 1 / 40 * u) * t| ≤ u * |(1 / 20 + 1 / 40 * u) * t| + η)
    (d3 : |n - (a + b)| ≤ u * |a + b| + η) :
    |n - t - 19 / 20 * (s - t)| ≤ 4 * u * (|s| + |t|) + 8 * η := by
  have hs := abs_nonneg s
  have ht := abs_nonneg t
  have us0 : 0 ≤ u * |s| := by positivity
  have ut0 : 0 ≤ u * |t| := by positivity
  have uus : u * (u * |s|) ≤ u * |s| := by nlinarith
  have uut : u * (u * |t|) ≤ u * |t| := by nlinarith
  have uη : u * η ≤ η := by nlinarith
  have m1 : |(19 / 20 - 2 / 5 * u) * s| ≤ |s| := by
    rw [abs_mul, abs_of_nonneg (by linarith : (0 : ℚ) ≤ 19 / 20 - 2 / 5 * u)]
    nlinarith
  have m2 : |(1 / 20 + 1 / 40 * u) * t| ≤ |t| := by
    rw [abs_mul, abs_of_nonneg (by linarith : (0 : ℚ) ≤ 1 / 20 + 1 / 40 * u)]
    nlinarith
  have b1 : |a - (19 / 20 - 2 / 5 * u) * s| ≤ u * |s| + η :=
    d1.trans (by linarith [mul_le_mul_of_nonneg_left m1 hu0.le])
  have b2 : |b - (1 / 20 + 1 / 40 * u) * t| ≤ u * |t| + η :=
    d2.trans (by linarith [mul_le_mul_of_nonneg_left m2 hu0.le])
  have a1 : |a| ≤ |s| + (u * |s| + η) := by
    have h := abs_sub_abs_le_abs_sub a ((19 / 20 - 2 / 5 * u) * s)
    linarith
  have a2 : |b| ≤ |t| + (u * |t| + η) := by
    have h := abs_sub_abs_le_abs_sub b ((1 / 20 + 1 / 40 * u) * t)
    linarith
  have hab : |a + b| ≤ |s| + (u * |s| + η) + (|t| + (u * |t| + η)) :=
    (abs_add a b).trans (add_le_add a1 a2)
  have b3 : |n - (a + b)| ≤ 2 * (u * |s|) + 2 * (u * |t|) + 3 * η := by
    have h := mul_le_mul_of_nonneg_left hab hu0.le
    have e : u * (|s| + (u * |s| + η) + (|t| + (u * |t| + η))) =
        u * |s| + u * (u * |s|) + u * η + (u * |t| + u * (u * |t|) + u * η) := by ring
    rw [e] at h
    linarith
  have c1 : |-(2 / 5 * u) * s + (1 / 40 * u) * t| ≤ 2 / 5 * (u * |s|) + 1 / 40 * (u * |t|) := by
    refine (abs_add _ _).trans ?_
    rw [abs_mul, abs_mul, abs_neg, abs_of_pos (by positivity : (0 : ℚ) < 2 / 5 * u),
      abs_of_pos (by positivity : (0 : ℚ) < 1 / 40 * u)]
    apply le_of_eq
    ring
  have key : n - t - 19 / 20 * (s - t) =
      (n - (a + b)) + (a - (19 / 20 - 2 / 5 * u) * s)
        + (b - (1 / 20 + 1 / 40 * u) * t) + (-(2 / 5 * u) * s + (1 / 40 * u) * t) := by
    ring
  have t2 := abs_add ((n - (a + b)) + (a - (19 / 20 - 2 / 5 * u) * s)
        + (b - (1 / 20 + 1 / 40 * u) * t)) (-(2 / 5 * u) * s + (1 / 40 * u) * t)
  have t3 := abs_add ((n - (a + b)) + (a - (19 / 20 - 2 / 5 * u) * s))
        (b - (1 / 20 + 1 / 40 * u) * t)
  have t4 := abs_add (n - (a + b)) (a - (19 / 20 - 2 / 5 * u) * s)
  rw [← key] at t2
  have e4 : 4 * u * (|s| + |t|) = 4 * (u * |s|) + 4 * (u * |t|) := by ring
  rw [e4]
  linarith

/-- One tick in binary64: the new distance to the target is 0.95 times the old one up to the
rounding of the two constants and of the three operations. -/
theorem lerp64_sub_le (s t : ℚ) :
    |lerp64 s t (f64 0.05) - t - 0.95 * (s - t)| ≤
      2 ^ (-51 : ℤ) * (|s| + |t|) + 2 ^ (-1072 : ℤ) := by
  have c95 : (4278419646001971 / 4503599627370496 : ℚ) = 19 / 20 - 2 / 5 * 2 ^ (-53 : ℤ) := by
    norm_num
  have c05 : (3602879701896397 / 72057594037927936 : ℚ) = 1 / 20 + 1 / 40 * 2 ^ (-53 : ℤ) := by
    norm_num
  have e51 : (2 : ℚ) ^ (-51 : ℤ) = 4 * 2 ^ (-53 : ℤ) := by norm_num
  have e1072 : (2 : ℚ) ^ (-1072 : ℤ) = 8 * 2 ^ (-1075 : ℤ) := by
    rw [show (-1072 : ℤ) = 3 + -1075 by norm_num, zpow_add₀ (by norm_num)]
    norm_num
  have e95 : (0.95 : ℚ) = 19 / 20 := by norm_num
  unfold lerp64
  rw [f64_one_sub_005, f64_literal_005, c95, c05, e51, e1072, e95]
  exact lerp_rounding_bound (2 ^ (-53 : ℤ)) (2 ^ (-1075 : ℤ)) s t _ _ _ (by positivity)
    (by norm_num) (by positivity) (f64_err _) (f64_err _) (f64_err _)

theorem targetZ64_one_800 : targetZ64 1 800 = 4489525878534963 / 1125899906842624 := by
  have h1 : f64 ((1 : ℚ) / 800) = 5764607523034235 / 4611686018427387904 := by
    rw [f64_eq_pos (-10) 5764607523034235 (by norm_num) (by norm_num) (by norm_num)
      (by norm_num) (by norm_num)]
    norm_num
  have h2 : f64 ((5764607523034235 : ℚ) / 4611686018427387904 * 10)
      = 3602879701896397 / 288230376151711744 := by
    rw [f64_eq_pos (-7) 7205759403792794 (by norm_num) (by norm_num) (by norm_num)
      (by norm_num) (by norm_num)]
    norm_num
  have h3 : f64 ((4 : ℚ) - 3602879701896397 / 288230376151711744)
      = 4489525878534963 / 1125899906842624 := by
    rw [f64_eq_pos 1 8979051757069926 (by norm_num) (by norm_num) (by norm_num)
      (by norm_num) (by norm_num)]
    norm_num
  unfold targetZ64
  rw [h1, h2, h3]

theorem cameraZ64_at_target_one_800 :
    cameraZ64 1 800 (4489525878534963 / 1125899906842624)
      = 8979051757069925 / 2251799813685248 := by
  have h1 : f64 ((4278419646001971 : ℚ) / 4503599627370496
      * (4489525878534963 / 1125899906842624)) = 8530099169216429 / 2251799813685248 := by
    rw [f64_eq_pos 1 8530099169216429 (by norm_num) (by norm_num) (by norm_num)
      (by norm_num) (by norm_num)]
    norm_num
  have h2 : f64 ((3602879701896397 : ℚ) / 72057594037927936
      * (4489525878534963 / 1125899906842624)) = 7183241405655941 / 36028797018963968 := by
    rw [f64_eq_pos (-3) 7183241405655941 (by norm_num) (by norm_num) (by norm_num)
      (by norm_num) (by norm_num)]
    norm_num
  have h3 : f64 ((8530099169216429 : ℚ) / 2251799813685248
      + 7183241405655941 / 36028797018963968) = 8979051757069925 / 2251799813685248 := by
    rw [f64_eq_pos 1 8979051757069925 (by norm_num) (by norm_num) (by norm_num)
      (by norm_num) (by norm_num)]
    norm_num
  unfold cameraZ64 lerp64
  rw [targetZ64_one_800, f64_one_sub_005, f64_literal_005, h1, h2, h3]

/-- C7 (as amended): at a constant scroll offset (non-negative, positive viewport height,
magnitudes below `2 ^ 1000` so that no operation overflows), each tick replaces the smoothed depth `d` by `lerp(d, targetZ, 0.05)` evaluated in binary64, and this
moves it toward the target up to rounding: with `ε = 2^-51 * (|d| + |targetZ|) + 2^-1072`, the
new offset from the target is `0.95` times the old one within `ε`; hence the new distance is at
most `0.95` times the old distance plus `ε`, and the new value passes the target by at most `ε`
from the side the old value was on. -/
theorem cameraZ64N_approaches_target (rawOffset h s0 : ℚ) (n : ℕ) (_hh : 0 < h)
    (_hy : 0 ≤ rawOffset) (_hfin : rawOffset ≤ 2 ^ 1000 * h) (_hs : |s0| ≤ 2 ^ 1000) :
    cameraZ64N rawOffset h s0 0 = s0 ∧
    cameraZ64N rawOffset h s0 (n + 1) =
      lerp64 (cameraZ64N rawOffset h s0 n) (targetZ64 rawOffset h) (f64 0.05) ∧
    |cameraZ64N rawOffset h s0 (n + 1) - targetZ64 rawOffset h
        - 0.95 * (cameraZ64N rawOffset h s0 n - targetZ64 rawOffset h)| ≤
      2 ^ (-51 : ℤ) * (|cameraZ64N rawOffset h s0 n| + |targetZ64 rawOffset h|)
        + 2 ^ (-1072 : ℤ) ∧
    |cameraZ64N rawOffset h s0 (n + 1) - targetZ64 rawOffset h| ≤
      0.95 * |cameraZ64N rawOffset h s0 n - targetZ64 rawOffset h|
        + (2 ^ (-51 : ℤ) * (|cameraZ64N rawOffset h s0 n| + |targetZ64 rawOffset h|)
          + 2 ^ (-1072 : ℤ)) ∧
    (cameraZ64N rawOffset h s0 n ≤ targetZ64 rawOffset h →
      cameraZ64N rawOffset h s0 (n + 1) ≤ targetZ64 rawOffset h
        + (2 ^ (-51 : ℤ) * (|cameraZ64N rawOffset h s0 n| + |targetZ64 rawOffset h|)
          + 2 ^ (-1072 : ℤ))) ∧
    (targetZ64 rawOffset h ≤ cameraZ64N rawOffset h s0 n →
      targetZ64 rawOffset h
        - (2 ^ (-51 : ℤ) * (|cameraZ64N rawOffset h s0 n| + |targetZ64 rawOffset h|)
          + 2 ^ (-1072 : ℤ)) ≤ cameraZ64N rawOffset h s0 (n + 1)) := by
  have hstep : cameraZ64N rawOffset h s0 (n + 1) =
      lerp64 (cameraZ64N rawOffset h s0 n) (targetZ64 rawOffset h) (f64 0.05) := rfl
  have hb := lerp64_sub_le (cameraZ64N rawOffset h s0 n) (targetZ64 rawOffset h)
  rw [← hstep] at hb
  have hb2 := abs_le.mp hb
  have e95 : (0.95 : ℚ) = 19 / 20 := by norm_num
  rw [e95] at hb hb2 ⊢
  refine ⟨rfl, hstep, hb, ?_, ?_, ?_⟩ <;>
    generalize 2 ^ (-51 : ℤ) * (|cameraZ64N rawOffset h s0 n| + |targetZ64 rawOffset h|)
      + 2 ^ (-1072 : ℤ) = ε at hb hb2 ⊢
  · have t := abs_add (19 / 20 * (cameraZ64N rawOffset h s0 n - targetZ64 rawOffset h))
      (cameraZ64N rawOffset h s0 (n + 1) - targetZ64 rawOffset h
        - 19 / 20 * (cameraZ64N rawOffset h s0 n - targetZ64 rawOffset h))
    rw [abs_mul, abs_of_pos (by norm_num : (0 : ℚ) < 19 / 20)] at t
    have e : 19 / 20 * (cameraZ64N rawOffset h s0 n - targetZ64 rawOffset h)
        + (cameraZ64N rawOffset h s0 (n + 1) - targetZ64 rawOffset h
          - 19 / 20 * (cameraZ64N rawOffset h s0 n - targetZ64 rawOffset h))
        = cameraZ64N rawOffset h s0 (n + 1) - targetZ64 rawOffset h := by ring
    rw [e] at t
    linarith
  · intro hle
    linarith [hb2.2]
  · intro hle
    linarith [hb2.1]

theorem cameraZ64N_approaches_target_witness :
    (0 : ℚ) < 800 ∧ (0 : ℚ) ≤ 400 ∧ (400 : ℚ) ≤ 2 ^ 1000 * 800 ∧ |(4 : ℚ)| ≤ 2 ^ 1000 ∧
    |cameraZ64N 400 800 4 (3 + 1) - targetZ64 400 800| ≤
      0.95 * |cameraZ64N 400 800 4 3 - targetZ64 400 800|
        + (2 ^ (-51 : ℤ) * (|cameraZ64N 400 800 4 3| + |targetZ64 400 800|)
          + 2 ^ (-1072 : ℤ)) :=
  ⟨by norm_num, by norm_num, by norm_num, by rw [abs_of_pos] <;> norm_num,
    (cameraZ64N_approaches_target 400 800 4 3 (by norm_num) (by norm_num) (by norm_num)
      (by rw [abs_of_pos] <;> norm_num)).2.2.2.1⟩

/-- C7 (as stated) fails: at scroll offset 1 and viewport height 800 the target depth is the
binary64 number 3.9875; from a smoothed depth equal to it (distance 0) one tick yields
3.9874999999999994, one unit in the last place below the target: the value has moved away from
the target and does not lie between the old value and the target. -/
theorem cameraZ64_overshoot_counterexample :
    targetZ64 1 800 = 4489525878534963 / 1125899906842624 ∧
    cameraZ64 1 800 (targetZ64 1 800) = 8979051757069925 / 2251799813685248 ∧
    cameraZ64 1 800 (targetZ64 1 800) < min (targetZ64 1 800) (targetZ64 1 800) ∧
    ¬ (|cameraZ64 1 800 (targetZ64 1 800) - targetZ64 1 800|
        ≤ |targetZ64 1 800 - targetZ64 1 800|) := by
  have h1 := targetZ64_one_800
  have h2 : cameraZ64 1 800 (targetZ64 1 800) = 8979051757069925 / 2251799813685248 := by
    rw [h1]
    exact cameraZ64_at_target_one_800
  refine ⟨h1, h2, ?_, ?_⟩
  · rw [h2, h1, min_self]
    norm_num
  · rw [h2, h1, sub_self, abs_zero, not_le, abs_pos]
    norm_num

/-! ## Particle field -/

theorem particleStep_length (sin cos acos : ℚ → ℚ) (random : ℕ → ℚ) (lo hi : ℚ)
    (buf : List ℚ) (n : ℕ) :
    (particleStep sin cos acos random lo hi buf n).length = buf.length := by
  simp [particleStep]

theorem particleFold_length (sin cos acos : ℚ → ℚ) (random : ℕ → ℚ) (lo hi : ℚ)
    (buf : List ℚ) (n : ℕ) :
    ((List.range n).foldl (particleStep sin cos acos random lo hi) buf).length
      = buf.length := by
  induction n with
  | zero => rfl
  | succ n ih => rw [List.range_succ, List.foldl_append, List.foldl_cons, List.foldl_nil,
      particleStep_length, ih]

theorem particleStep_point_other (sin cos acos : ℚ → ℚ) (random : ℕ → ℚ) (lo hi : ℚ)
    (buf : List ℚ) (n i : ℕ) (hne : i ≠ n) :
    point (particleStep sin cos acos random lo hi buf n) i = point buf i := by
  have a0 : ¬ (n * 3 = 3 * i) := by omega
  have a1 : ¬ (n * 3 = 3 * i + 1) := by omega
  have a2 : ¬ (n * 3 = 3 * i + 2) := by omega
  have b0 : ¬ (n * 3 + 1 = 3 * i) := by omega
  have b1 : ¬ (n * 3 + 1 = 3 * i + 1) := by omega
  have b2 : ¬ (n * 3 + 1 = 3 * i + 2) := by omega
  have c0 : ¬ (n * 3 + 2 = 3 * i) := by omega
  have c1 : ¬ (n * 3 + 2 = 3 * i + 1) := by omega
  have c2 : ¬ (n * 3 + 2 = 3 * i + 2) := by omega
  simp [point, particleStep, getD_set, a0, a1, a2, b0, b1, b2, c0, c1, c2]

theorem particleStep_point_self (sin cos acos : ℚ → ℚ) (random : ℕ → ℚ) (lo hi : ℚ)
    (buf : List ℚ) (n : ℕ) (hlen : n * 3 + 2 < buf.length) :
    point (particleStep sin cos acos random lo hi buf n) n =
      (f32 (f64 (f64 (f64 (lo + f64 (random (3 * n + 2) * f64 (hi - lo)))
            * sin (acos (f64 (f64 (2 * random (3 * n + 1)) - 1))))
          * cos (f64 (f64 (random (3 * n) * 2) * PI64)))),
        f32 (f64 (f64 (f64 (lo + f64 (random (3 * n + 2) * f64 (hi - lo)))
            * sin (acos (f64 (f64 (2 * random (3 * n + 1)) - 1))))
          * sin (f64 (f64 (random (3 * n) * 2) * PI64)))),
        f32 (f64 (f64 (lo + f64 (random (3 * n + 2) * f64 (hi - lo)))
          * cos (acos (f64 (f64 (2 * random (3 * n + 1)) - 1)))))) := by
  have a0 : n * 3 = 3 * n := by omega
  have l0 : 3 * n < buf.length := by omega
  have l1 : 3 * n + 1 < buf.length := by omega
  have l2 : 3 * n + 2 < buf.length := by omega
  simp only [point, particleStep, getD_set, List.length_set, a0]
  simp [l0, l1, l2]

theorem particleFold_point (sin cos acos : ℚ → ℚ) (random : ℕ → ℚ) (lo hi : ℚ)
    (buf : List ℚ) (n i : ℕ) (hn : n * 3 ≤ buf.length) (hi_lt : i < n) :
    point ((List.range n).foldl (particleStep sin cos acos random lo hi) buf) i =
      (f32 (f64 (f64 (f64 (lo + f64 (random (3 * i + 2) * f64 (hi - lo)))
            * sin (acos (f64 (f64 (2 * random (3 * i + 1)) - 1))))
          * cos (f64 (f64 (random (3 * i) * 2) * PI64)))),
        f32 (f64 (f64 (f64 (lo + f64 (random (3 * i + 2) * f64 (hi - lo)))
            * sin (acos (f64 (f64 (2 * random (3 * i + 1)) - 1))))
          * sin (f64 (f64 (random (3 * i) * 2) * PI64)))),
        f32 (f64 (f64 (lo + f64 (random (3 * i + 2) * f64 (hi - lo)))
          * cos (acos (f64 (f64 (2 * random (3 * i + 1)) - 1)))))) := by
  induction n with
  | zero => omega
  | succ n ih =>
    rw [List.range_succ, List.foldl_append, List.foldl_cons, List.foldl_nil]
    by_cases hin : i = n
    · subst hin
      apply particleStep_point_self
      rw [particleFold_length]
      omega
    · rw [particleStep_point_other _ _ _ _ _ _ _ _ _ hin]
      exact ih (by omega) (by omega)

theorem f64_zero : f64 0 = 0 := roundBinary_zero 53 (-1022)

theorem f32_zero : f32 0 = 0 := roundBinary_zero 24 (-126)

/-- Rounding to binary64 does not cross an integer, for values below `2 ^ 53` in magnitude. -/
theorem f64_int_bounds {x : ℚ} (c : ℤ) (hx : |x| < 2 ^ 53) :
    (x ≤ c → f64 x ≤ c) ∧ ((c : ℚ) ≤ x → (c : ℚ) ≤ f64 x) := by
  by_cases h0 : x = 0
  · subst h0
    rw [f64_zero]
    exact ⟨id, id⟩
  have hxa : 0 < |x| := abs_pos.mpr h0
  have hlog : Int.log 2 |x| < 53 := by
    apply (Int.lt_zpow_iff_log_lt (b := 2) (by norm_num) hxa).mp
    exact_mod_cast hx
  obtain ⟨k, hk⟩ : ∃ k : ℕ, max (Int.log 2 |x|) (-1022) - 52 = -(k : ℤ) := by
    refine ⟨(52 - max (Int.log 2 |x|) (-1022)).toNat, ?_⟩
    have : max (Int.log 2 |x|) (-1022) ≤ 52 := max_le (by omega) (by norm_num)
    omega
  have e1 : f64 x = (roundHalfEven (x * 2 ^ k) : ℚ) / 2 ^ k := by
    unfold f64 roundBinary
    have : ((53 : ℕ) : ℤ) - 1 = 52 := by norm_num
    rw [this, hk, zpow_neg, zpow_natCast, div_inv_eq_mul]
    rfl
  have hp : (0 : ℚ) < 2 ^ k := by positivity
  rw [e1]
  constructor
  · intro h
    have h1 : x * 2 ^ k ≤ ((c * 2 ^ k : ℤ) : ℚ) := by
      push_cast
      exact mul_le_mul_of_nonneg_right h hp.le
    have h2 := roundHalfEven_le_int h1
    rw [div_le_iff₀ hp]
    exact_mod_cast h2
  · intro h
    have h1 : ((c * 2 ^ k : ℤ) : ℚ) ≤ x * 2 ^ k := by
      push_cast
      exact mul_le_mul_of_nonneg_right h hp.le
    have h2 := int_le_roundHalfEven h1
    rw [le_div_iff₀ hp]
    exact_mod_cast h2

theorem f64_ten : f64 (40 - 30) = 10 := by
  rw [f64_eq_pos 3 5629499534213120 (by norm_num) (by norm_num) (by norm_num) (by norm_num)
    (by norm_num)]
  norm_num

/-- The radius drawn at line 102 lies in `[30, 40]` for a draw in `[0, 1)`. -/
theorem drawnRadius_bounds (random : ℕ → ℚ) (i : ℕ)
    (hr : 0 ≤ random (3 * i + 2) ∧ random (3 * i + 2) < 1) :
    30 ≤ drawnRadius random i ∧ drawnRadius random i ≤ 40 := by
  unfold drawnRadius
  rw [f64_ten]
  have ht0 : (0 : ℚ) ≤ random (3 * i + 2) * 10 := by linarith [hr.1]
  have ht1 : random (3 * i + 2) * 10 ≤ 10 := by linarith [hr.2]
  have hta : |random (3 * i + 2) * 10| < 2 ^ 53 := by
    rw [abs_of_nonneg ht0]
    norm_num
    linarith
  have w0 : (0 : ℚ) ≤ f64 (random (3 * i + 2) * 10) := by
    have := (f64_int_bounds 0 hta).2 (by simpa using ht0)
    simpa using this
  have w1 : f64 (random (3 * i + 2) * 10) ≤ 10 := by
    have := (f64_int_bounds 10 hta).1 (by simpa using ht1)
    simpa using this
  have hsa : |30 + f64 (random (3 * i + 2) * 10)| < 2 ^ 53 := by
    rw [abs_of_nonneg (by linarith)]
    norm_num
    linarith
  constructor
  · have := (f64_int_bounds 30 hsa).2 (by push_cast; linarith)
    simpa using this
  · have := (f64_int_bounds 40 hsa).1 (by push_cast; linarith)
    simpa using this

/-- A binary32 value of magnitude at least `2 ^ k` is an integer multiple of `2 ^ (k - 23)`. -/
theorem f32_grid (q : ℚ) (k : ℤ) (h : (2 : ℚ) ^ k ≤ |f32 q|) :
    ∃ n : ℤ, f32 q = n * 2 ^ (k - 23) := by
  by_cases h0 : q = 0
  · subst h0
    rw [f32_zero, abs_zero] at h
    exact absurd h (not_le.mpr (by positivity))
  have hqa : 0 < |q| := abs_pos.mpr h0
  set e := max (Int.log 2 |q|) (-126) with he
  set m := roundHalfEven (q / 2 ^ (e - 23)) with hm
  have hv : f32 q = m * 2 ^ (e - 23) := by
    unfold f32 roundBinary
    have : ((24 : ℕ) : ℤ) - 1 = 23 := by norm_num
    rw [this]
  have hu : (0 : ℚ) < 2 ^ (e - 23) := by positivity
  have hq1 : |q| < 2 ^ (e + 1) := by
    have h1 : |q| < (2 : ℚ) ^ (Int.log 2 |q| + 1) := by
      exact_mod_cast Int.lt_zpow_succ_log_self (b := 2) (by norm_num) |q|
    refine h1.trans_le ?_
    apply zpow_le_zpow_right₀ (by norm_num)
    have := le_max_left (Int.log 2 |q|) (-126)
    omega
  have hy : |q / 2 ^ (e - 23)| < 2 ^ 24 := by
    rw [abs_div, abs_of_pos hu, div_lt_iff₀ hu]
    have : (2 : ℚ) ^ 24 * 2 ^ (e - 23) = 2 ^ (e + 1) := by
      rw [show e + 1 = 24 + (e - 23) by ring, zpow_add₀ (by norm_num)]
      norm_num
    rw [this]
    exact hq1
  have hmabs : |m| ≤ 2 ^ 24 := by
    have hr := roundHalfEven_sub_le (q / 2 ^ (e - 23))
    rw [← hm] at hr
    have h1 : |(m : ℚ)| < 2 ^ 24 + 1 := by
      have := abs_sub_abs_le_abs_sub (m : ℚ) (q / 2 ^ (e - 23))
      linarith
    have h2 : |m| < 2 ^ 24 + 1 := by exact_mod_cast h1
    omega
  have hvabs : |f32 q| = (|m| : ℤ) * 2 ^ (e - 23) := by
    rw [hv, abs_mul, abs_of_pos hu]
    push_cast
    rfl
  have hke : k ≤ e + 1 := by
    by_contra hcon
    have h1 : |f32 q| ≤ 2 ^ (e + 1) := by
      rw [hvabs, show e + 1 = 24 + (e - 23) by ring, zpow_add₀ (by norm_num)]
      apply mul_le_mul_of_nonneg_right _ hu.le
      exact_mod_cast hmabs
    have h2 : (2 : ℚ) ^ (e + 1) < 2 ^ k := by
      apply zpow_lt_zpow_right₀ (by norm_num)
      omega
    linarith
  rcases (by omega : k ≤ e ∨ k = e + 1) with hle | heq
  · obtain ⟨j, hj⟩ : ∃ j : ℕ, e - 23 = (j : ℤ) + (k - 23) := ⟨(e - k).toNat, by omega⟩
    refine ⟨m * 2 ^ j, ?_⟩
    rw [hv, hj, zpow_add₀ (by norm_num), zpow_natCast]
    push_cast
    ring
  · have h1 : (2 : ℚ) ^ 24 * 2 ^ (e - 23) ≤ (|m| : ℤ) * 2 ^ (e - 23) := by
      rw [← hvabs, ← zpow_natCast, ← zpow_add₀ (by norm_num)]
      have : ((24 : ℕ) : ℤ) + (e - 23) = k := by omega
      rw [this]
      exact h
    have h2 := le_of_mul_le_mul_right h1 hu
    have h3 : (2 : ℤ) ^ 24 ≤ |m| := by exact_mod_cast h2
    have h4 : |m| = 2 ^ 24 := le_antisymm hmabs h3
    rcases abs_eq (by norm_num : (0 : ℤ) ≤ 2 ^ 24) |>.mp h4 with hm1 | hm1
    · refine ⟨2 ^ 23, ?_⟩
      rw [hv, hm1, show k - 23 = 1 + (e - 23) by omega, zpow_add₀ (by norm_num)]
      push_cast
      ring
    · refine ⟨-2 ^ 23, ?_⟩
      rw [hv, hm1, show k - 23 = 1 + (e - 23) by omega, zpow_add₀ (by norm_num)]
      push_cast
      ring

/-- No pair of binary32 values, one of magnitude at least 16, has squares summing to the square
of `30 + 5 * 2 ^ (-48)`: the larger is a multiple of `2 ^ (-19)`, which forces the smaller to be
at least `2 ^ (-22)` in magnitude and so a multiple of `2 ^ (-45)`, and then the sum of squares
times `2 ^ 96` is even while `(30 * 2 ^ 48 + 5) ^ 2` is odd. -/
theorem f32_leg_impossible (q1 q2 : ℚ) (hbig : 16 ≤ |f32 q1|)
    (heq : f32 q1 ^ 2 + f32 q2 ^ 2 = (8444249301319685 / 281474976710656) ^ 2) : False := by
  obtain ⟨n, hn⟩ := f32_grid q1 4 (by norm_num; exact hbig)
  have hv : f32 q1 = (n : ℚ) / 524288 := by
    rw [hn]
    norm_num
    ring
  rw [hv] at heq
  have hW : (f32 q2 * 281474976710656) ^ 2 =
      (8444249301319685 : ℚ) ^ 2 - ((n : ℚ) * 536870912) ^ 2 := by
    have : f32 q2 ^ 2 = (8444249301319685 / 281474976710656) ^ 2 - ((n : ℚ) / 524288) ^ 2 := by
      linarith
    rw [mul_pow, this]
    ring
  have hA2 : ((n * 536870912 : ℤ) : ℚ) ^ 2 ≤ ((8444249301319685 : ℤ) : ℚ) ^ 2 := by
    have := sq_nonneg (f32 q2 * 281474976710656)
    rw [hW] at this
    push_cast
    linarith
  have hA2' : (n * 536870912) ^ 2 ≤ (8444249301319685 : ℤ) ^ 2 := by exact_mod_cast hA2
  have hA : |n * 536870912| ≤ (8444249301319685 : ℤ) := by
    have := abs_le_of_sq_le_sq' hA2' (by norm_num)
    exact abs_le.mpr this
  have hA' : |n * 536870912| ≤ (8444249301319680 : ℤ) := by
    rw [abs_mul] at hA ⊢
    have e : |(536870912 : ℤ)| = 536870912 := by norm_num
    rw [e] at hA ⊢
    omega
  have hA3 : (n * 536870912) ^ 2 ≤ (8444249301319680 : ℤ) ^ 2 := by
    rw [← sq_abs (n * 536870912)]
    exact pow_le_pow_left₀ (abs_nonneg _) hA' 2
  have hW2 : (4503599627370496 : ℚ) ≤ (f32 q2 * 281474976710656) ^ 2 := by
    rw [hW]
    have : ((n * 536870912 : ℤ) : ℚ) ^ 2 ≤ ((8444249301319680 : ℤ) : ℚ) ^ 2 := by
      exact_mod_cast hA3
    push_cast at this
    linarith
  have hw : (2 : ℚ) ^ (-22 : ℤ) ≤ |f32 q2| := by
    by_contra hcon
    rw [not_le] at hcon
    have h1 : |f32 q2| ^ 2 < ((2 : ℚ) ^ (-22 : ℤ)) ^ 2 :=
      pow_lt_pow_left₀ hcon (abs_nonneg _) (by norm_num)
    rw [sq_abs] at h1
    rw [mul_pow] at hW2
    norm_num at h1
    linarith
  obtain ⟨k, hk⟩ := f32_grid q2 (-22) hw
  have hwv : f32 q2 * 281474976710656 = (k : ℚ) * 8 := by
    rw [hk]
    norm_num
    ring
  rw [hwv] at hW
  have hZ : (k * 8) ^ 2 = (8444249301319685 : ℤ) ^ 2 - (n * 536870912) ^ 2 := by
    exact_mod_cast hW
  have hN : (8444249301319685 : ℤ) ^ 2 = 71305346262837988276682568499225 := by norm_num
  rw [hN] at hZ
  have e1 : (k * 8) ^ 2 = 2 * (32 * k ^ 2) := by ring
  have e2 : (n * 536870912) ^ 2 = 2 * (144115188075855872 * n ^ 2) := by ring
  rw [e1, e2] at hZ
  omega

/-- No two binary32 values have squares summing to the square of `30 + 5 * 2 ^ (-48)`. -/
theorem f32_pair_impossible (q1 q2 : ℚ) :
    f32 q1 ^ 2 + f32 q2 ^ 2 ≠ (8444249301319685 / 281474976710656) ^ 2 := by
  intro heq
  by_cases hbig : 16 ≤ |f32 q2|
  · exact f32_leg_impossible q2 q1 hbig (by rw [add_comm]; exact heq)
  · rw [not_le] at hbig
    have h1 : |f32 q2| ^ 2 < 16 ^ 2 := pow_lt_pow_left₀ hbig (abs_nonneg _) (by norm_num)
    rw [sq_abs] at h1
    have h2 : (16 : ℚ) ^ 2 ≤ f32 q1 ^ 2 := by
      norm_num at heq h1 ⊢
      linarith
    have h3 : 16 ≤ |f32 q1| := by
      have := sq_le_sq.mp h2
      rwa [abs_of_pos (by norm_num : (0 : ℚ) < 16)] at this
    exact f32_leg_impossible q1 q2 h3 heq

theorem drawnRadius_exampleDraws :
    drawnRadius exampleDraws 0 = 8444249301319685 / 281474976710656 := by
  have h1 : f64 ((1 : ℚ) / 2 ^ 49 * 10) = 5 / 281474976710656 := by
    rw [f64_eq_pos (-46) 5629499534213120 (by norm_num) (by norm_num) (by norm_num)
      (by norm_num) (by norm_num)]
    norm_num
  have h2 : f64 ((30 : ℚ) + 5 / 281474976710656) = 8444249301319685 / 281474976710656 := by
    rw [f64_eq_pos 4 8444249301319685 (by norm_num) (by norm_num) (by norm_num)
      (by norm_num) (by norm_num)]
    norm_num
  have hd : exampleDraws (3 * 0 + 2) = 1 / 2 ^ 49 := by simp [exampleDraws]
  unfold drawnRadius
  rw [f64_ten, hd, h1, h2]

/-- C8 (as amended): for every sequence of random draws in `[0, 1)` (and whatever `Math.sin`,
`Math.cos`, `Math.acos` return, sines and cosines being in `[-1, 1]`), the generator run with count 1500 and radii 30 and 40 produces
exactly 4500 coordinates, that is 1500 triples; the triple of particle `i` holds the binary32
roundings of the binary64 products `r sin φ cos θ`, `r sin φ sin θ`, `r cos φ` for its three
draws, and its drawn radius `r = 30 + u * 10` (in binary64) lies in `[30, 40]`. -/
theorem positions_stored_triples (sin cos acos : ℚ → ℚ) (random : ℕ → ℚ) (i : ℕ)
    (_hsin : ∀ x, |sin x| ≤ 1) (_hcos : ∀ x, |cos x| ≤ 1)
    (hr : ∀ k, 0 ≤ random k ∧ random k < 1) (hi : i < 1500) :
    (positions sin cos acos random).length = 4500 ∧
    (positions sin cos acos random).length = 1500 * 3 ∧
    point (positions sin cos acos random) i =
      (f32 (f64 (f64 (drawnRadius random i
            * sin (acos (f64 (f64 (2 * random (3 * i + 1)) - 1))))
          * cos (f64 (f64 (random (3 * i) * 2) * PI64)))),
        f32 (f64 (f64 (drawnRadius random i
            * sin (acos (f64 (f64 (2 * random (3 * i + 1)) - 1))))
          * sin (f64 (f64 (random (3 * i) * 2) * PI64)))),
        f32 (f64 (drawnRadius random i
          * cos (acos (f64 (f64 (2 * random (3 * i + 1)) - 1)))))) ∧
    drawnRadius random i = f64 (30 + f64 (random (3 * i + 2) * 10)) ∧
    30 ≤ drawnRadius random i ∧ drawnRadius random i ≤ 40 := by
  have hlen : (positions sin cos acos random).length = 4500 := by
    unfold positions particlePositions
    rw [particleFold_length, List.length_replicate]
  have hpt := particleFold_point sin cos acos random 30 40
    (List.replicate (1500 * 3) 0) 1500 i (by rw [List.length_replicate]) hi
  have hb := drawnRadius_bounds random i (hr (3 * i + 2))
  refine ⟨hlen, hlen, hpt, ?_, hb.1, hb.2⟩
  unfold drawnRadius
  rw [f64_ten]

theorem positions_stored_triples_witness :
    (∀ x : ℚ, |(fun y : ℚ => max (-1) (min 1 (y - y ^ 3 / 6))) x| ≤ 1) ∧
    (∀ x : ℚ, |(fun y : ℚ => max (-1) (min 1 (1 - y ^ 2 / 2))) x| ≤ 1) ∧
    (∀ k : ℕ, 0 ≤ (fun _ : ℕ => (1 / 2 : ℚ)) k ∧ (fun _ : ℕ => (1 / 2 : ℚ)) k < 1) ∧
    7 < 1500 ∧
    (positions (fun y : ℚ => max (-1) (min 1 (y - y ^ 3 / 6)))
      (fun y : ℚ => max (-1) (min 1 (1 - y ^ 2 / 2))) (fun y : ℚ => PI64 / 2 - y)
      (fun _ : ℕ => (1 / 2 : ℚ))).length = 4500 ∧
    30 ≤ drawnRadius (fun _ : ℕ => (1 / 2 : ℚ)) 7 ∧
    drawnRadius (fun _ : ℕ => (1 / 2 : ℚ)) 7 ≤ 40 :=
  ⟨fun x => abs_le.mpr ⟨le_max_left _ _, max_le (by norm_num) (min_le_left _ _)⟩,
    fun x => abs_le.mpr ⟨le_max_left _ _, max_le (by norm_num) (min_le_left _ _)⟩,
    fun _ => ⟨by norm_num, by norm_num⟩, by decide,
    (positions_stored_triples (fun y : ℚ => max (-1) (min 1 (y - y ^ 3 / 6)))
      (fun y : ℚ => max (-1) (min 1 (1 - y ^ 2 / 2))) (fun y : ℚ => PI64 / 2 - y)
      (fun _ : ℕ => (1 / 2 : ℚ)) 7
      (fun x => abs_le.mpr ⟨le_max_left _ _, max_le (by norm_num) (min_le_left _ _)⟩)
      (fun x => abs_le.mpr ⟨le_max_left _ _, max_le (by norm_num) (min_le_left _ _)⟩)
      (fun _ => ⟨by norm_num, by norm_num⟩) (by decide)).1,
    (positions_stored_triples (fun y : ℚ => max (-1) (min 1 (y - y ^ 3 / 6)))
      (fun y : ℚ => max (-1) (min 1 (1 - y ^ 2 / 2))) (fun y : ℚ => PI64 / 2 - y)
      (fun _ : ℕ => (1 / 2 : ℚ)) 7
      (fun x => abs_le.mpr ⟨le_max_left _ _, max_le (by norm_num) (min_le_left _ _)⟩)
      (fun x => abs_le.mpr ⟨le_max_left _ _, max_le (by norm_num) (min_le_left _ _)⟩)
      (fun _ => ⟨by norm_num, by norm_num⟩) (by decide)).2.2.2.2.1,
    (positions_stored_triples (fun y : ℚ => max (-1) (min 1 (y - y ^ 3 / 6)))
      (fun y : ℚ => max (-1) (min 1 (1 - y ^ 2 / 2))) (fun y : ℚ => PI64 / 2 - y)
      (fun _ : ℕ => (1 / 2 : ℚ)) 7
      (fun x => abs_le.mpr ⟨le_max_left _ _, max_le (by norm_num) (min_le_left _ _)⟩)
      (fun x => abs_le.mpr ⟨le_max_left _ _, max_le (by norm_num) (min_le_left _ _)⟩)
      (fun _ => ⟨by norm_num, by norm_num⟩) (by decide)).2.2.2.2.2⟩

/-- C8 (as stated) fails: with the draws `0, 0, 2^-49` for the first particle the drawn radius
is `30 + 2^-49 * 10`, and whatever `Math.sin`, `Math.cos` and `Math.acos` return (sines and
cosines in `[-1, 1]`, and `Math.sin(0) = 0` as ECMAScript requires), the Euclidean norm of the
stored triple differs from it: the stored coordinates are binary32 numbers, and no such numbers
have that norm. -/
theorem positions_norm_counterexample :
    (∀ k, 0 ≤ exampleDraws k ∧ exampleDraws k < 1) ∧
    drawnRadius exampleDraws 0 = 30 + 1 / 2 ^ 49 * 10 ∧
    ¬ ∃ sin cos acos : ℚ → ℚ, (∀ x, |sin x| ≤ 1) ∧ (∀ x, |cos x| ≤ 1) ∧ sin 0 = 0 ∧
      Real.sqrt ((((point (positions sin cos acos exampleDraws) 0).1 : ℚ) : ℝ) ^ 2
        + (((point (positions sin cos acos exampleDraws) 0).2.1 : ℚ) : ℝ) ^ 2
        + (((point (positions sin cos acos exampleDraws) 0).2.2 : ℚ) : ℝ) ^ 2)
        = ((drawnRadius exampleDraws 0 : ℚ) : ℝ) := by
  refine ⟨?_, ?_, ?_⟩
  · intro k
    unfold exampleDraws
    split_ifs <;> norm_num
  · rw [drawnRadius_exampleDraws]
    norm_num
  · rintro ⟨sin, cos, acos, _, _, hs, hnorm⟩
    have hpt := particleFold_point sin cos acos exampleDraws 30 40
      (List.replicate (1500 * 3) 0) 1500 0 (by rw [List.length_replicate]) (by decide)
    have hpt2 : point (positions sin cos acos exampleDraws) 0 = _ := hpt
    have hθ : f64 (f64 (exampleDraws (3 * 0) * 2) * PI64) = 0 := by
      have : exampleDraws (3 * 0) = 0 := by simp [exampleDraws]
      rw [this, zero_mul, f64_zero, zero_mul, f64_zero]
    rw [hθ, hs, mul_zero (f64 _), f64_zero, f32_zero] at hpt2
    obtain ⟨X, Z, hXZ⟩ : ∃ X Z : ℚ,
        point (positions sin cos acos exampleDraws) 0 = (f32 X, 0, f32 Z) := ⟨_, _, hpt2⟩
    rw [hXZ] at hnorm
    have hsq := congrArg (fun t : ℝ => t ^ 2) hnorm
    simp only at hsq
    rw [Real.sq_sqrt (by positivity)] at hsq
    have hq : f32 X ^ 2 + (0 : ℚ) ^ 2 + f32 Z ^ 2 = drawnRadius exampleDraws 0 ^ 2 := by
      exact_mod_cast hsq
    rw [drawnRadius_exampleDraws] at hq
    have hq2 : f32 X ^ 2 + f32 Z ^ 2 = (8444249301319685 / 281474976710656) ^ 2 := by
      rw [← hq]
      ring
    exact f32_pair_impossible X Z hq2

end Portfolio
